import Mathlib

/-!
Verification of the Discovery Raffle weighted-draw page.

The repository's only logic is in `src/pages/Raffle.tsx` (the caller: pool
filtering, count clamping, persistence, CSV export, winner-load fallback).
The weighted-draw engine itself (`drawWinners` in `utils/raffle`) and the
storage collaborators (`utils/storage`) are not part of the provided source;
they are modelled from the specification (§4.1, §4.2), as indicated in the
doc comments of the corresponding definitions.

Conventions of the embedding:
* Randomness is a function `rand : Nat → Nat` giving the raw random value for
  each draw round; the uniform value in `[0, sum)` of spec §4.1 step 2 is
  obtained as `rand i % sum` (every value of `[0, sum)` is reachable).
* Time is a `Nat` supplied to the operations that read the clock.
* Ticket weights are `Int`, so the `tickets ≤ 0` edge cases are expressible.
-/

namespace Raffle

/-- The two pool tags of the page (`drawConfigs` in `Raffle.tsx`). -/
inductive DrawType where
  | discovery70
  | discovery80
deriving DecidableEq, Repr

/-- A raffle contestant (spec §3): a unique `name`, opaque metadata, an
integer ticket weight and the pool tag it belongs to. -/
structure Contestant where
  name : String
  department : String
  supervisor : String
  tickets : Int
  drawType : DrawType
deriving DecidableEq, Repr

/-- A persisted winner (spec §3): a contestant plus the `drawDate` and the
`drawType` recorded when it was selected. -/
structure Winner where
  name : String
  department : String
  supervisor : String
  tickets : Int
  drawType : DrawType
  drawDate : Nat
deriving DecidableEq, Repr

/-- The error surfaced by the draw engine on a non-empty candidate pool with
no positive-weight candidate (spec §7). -/
inductive DrawError where
  | noPositiveWeightCandidates
deriving DecidableEq, Repr

/-- Sum of ticket weights over a candidate pool (spec §4.1 step 1). -/
def totalTickets (pool : List Contestant) : Int :=
  (pool.map Contestant.tickets).sum

/-- Modelled from the spec: §4.1 step 3 of the missing engine
(`drawWinners` in `utils/raffle`). Walk the candidate pool accumulating
ticket weights until the running total exceeds the drawn value `r`; the
contestant at that point is the round's winner. -/
def walkPick (pool : List Contestant) (acc r : Int) : Option Contestant :=
  match pool with
  | [] => none
  | c :: rest => if acc + c.tickets > r then some c else walkPick rest (acc + c.tickets) r

/-- Modelled from the spec: §4.1 steps 1–4 of the missing engine
(`drawWinners` in `utils/raffle`). Repeat up to `k` times: sum the weights of
the remaining pool, draw `rand i % sum` (uniform in `[0, sum)`), pick by
cumulative walk, remove the winner and continue. When the remaining pool is
empty, or its total weight is not positive so no value of `[0, sum)` exists,
no further draw is possible and the rounds stop. -/
def drawLoop (rand : Nat → Nat) (i : Nat) (k : Nat) (pool : List Contestant) :
    List Contestant :=
  match k with
  | 0 => []
  | Nat.succ k =>
    if pool.isEmpty then []
    else if totalTickets pool ≤ 0 then []
    else
      match walkPick pool 0 ((rand i : Int) % totalTickets pool) with
      | none => []
      | some c => c :: drawLoop rand (i + 1) k (pool.erase c)

/-- Modelled from the spec: the missing engine `drawWinners` of
`utils/raffle`, following §4.1. The pool is first filtered by
`excludedNames`; an empty filtered pool returns an empty result with no
error; a non-empty filtered pool with no positive-weight candidate fails
with the defined error (§7 "no positive-weight candidates" — the division by
zero of §4.1 step 2 arises at the first draw attempt, hence only when
`count > 0`); otherwise the draw rounds of §4.1 run. -/
def selectWinners (rand : Nat → Nat) (pool : List Contestant) (count : Nat)
    (excludedNames : List String) : Except DrawError (List Contestant) :=
  let candidates := pool.filter fun c => !(excludedNames.contains c.name)
  if candidates.isEmpty then Except.ok []
  else if count = 0 then Except.ok []
  else if candidates.all fun c => c.tickets ≤ 0 then
    Except.error DrawError.noPositiveWeightCandidates
  else Except.ok (drawLoop rand 0 count candidates)

/-- The outcome of one click of the draw button. -/
inductive DrawOutcome where
  | skipped
  | failed (e : DrawError)
  | drawn (winners : List Contestant)
deriving DecidableEq, Repr

/-- The component state of `Raffle.tsx` (its `useState` hooks). -/
structure RaffleState where
  selectedDraw : DrawType
  winnerCount : Int
  isDrawing : Bool
  currentWinners : List Contestant
  showResults : Bool
  allWinners : List Winner
  isLoading : Bool
deriving DecidableEq, Repr

/-- The initial component state of `Raffle.tsx` (lines 34–40): `allWinners`
starts from the local cache `getWinners()`, passed here as `localWinners`. -/
def initialState (localWinners : List Winner) : RaffleState :=
  { selectedDraw := DrawType.discovery70
    winnerCount := 1
    isDrawing := false
    currentWinners := []
    showResults := false
    allWinners := localWinners
    isLoading := false }

/-- The `existingWinnerNames` value of `Raffle.tsx` line 59. -/
def existingWinnerNames (s : RaffleState) : List String :=
  s.allWinners.map Winner.name

/-- The `availableContestants` value of `Raffle.tsx` lines 58–60: the contestants of
the selected pool whose name is not among the persisted winners. The
contestant source `getAllContestants` is an external collaborator (§4.2),
passed as `getAll`. -/
def availableContestants (getAll : DrawType → List Contestant) (s : RaffleState) :
    List Contestant :=
  (getAll s.selectedDraw).filter fun c => !((existingWinnerNames s).contains c.name)

/-- Modelled from the spec: §4.2 `addWinner` of the missing `utils/storage`
— persist one winner and return the persisted record with `drawDate`
assigned (to the current time `now`). -/
def addWinner (now : Nat) (c : Contestant) (dt : DrawType) : Winner :=
  { name := c.name
    department := c.department
    supervisor := c.supervisor
    tickets := c.tickets
    drawType := dt
    drawDate := now }

/-- The `handleDraw` handler of `Raffle.tsx` lines 108–132, at time `now`. When the
available pool is empty it returns at once (line 109) with the state
untouched and outcome `skipped`, without invoking the engine. Otherwise the
engine is invoked on the available pool with the count clamped to
`min(winnerCount, availableContestants.length)` (line 118); the winners are
persisted via `addWinner` (line 121) and the state updated (lines 123–126).
An engine error would propagate out of the `async` handler, leaving the
state as modelled by outcome `failed`. -/
def handleDraw (getAll : DrawType → List Contestant) (rand : Nat → Nat) (now : Nat)
    (s : RaffleState) : RaffleState × DrawOutcome :=
  let avail := availableContestants getAll s
  if avail.length = 0 then (s, DrawOutcome.skipped)
  else
    match selectWinners rand avail (min s.winnerCount (avail.length : Int)).toNat
        (existingWinnerNames s) with
    | Except.error e => (s, DrawOutcome.failed e)
    | Except.ok winners =>
      let savedWinners := winners.map fun w => addWinner now w s.selectedDraw
      ({ s with currentWinners := winners
                allWinners := s.allWinners ++ savedWinners
                isDrawing := false
                showResults := true }, DrawOutcome.drawn winners)

/-- The effect on the state of the Supabase load of `Raffle.tsx` lines
42–56: on success `allWinners` is replaced by the fetched list; on failure
the error is only logged and the state keeps its local winner set; either
way the loading flag ends false. -/
def loadWinnersFromSupabase (s : RaffleState) (remote : Except String (List Winner)) :
    RaffleState :=
  match remote with
  | Except.ok ws => { s with allWinners := ws, isLoading := false }
  | Except.error _ => { s with isLoading := false }

/-- Clicking a draw config (`Raffle.tsx` line 183): only `selectedDraw`
changes; in particular `currentWinners` is kept. -/
def setSelectedDraw (s : RaffleState) (d : DrawType) : RaffleState :=
  { s with selectedDraw := d }

/-- The change handler of the winner-count input (`Raffle.tsx` line 243):
`Math.max(1, parseInt(v) || 1)`. A non-numeric input (`parseInt` returns
`NaN`, here `none`) and the falsy value `0` both coerce to `1`. -/
def updateWinnerCount (s : RaffleState) (v : Option Int) : RaffleState :=
  { s with winnerCount := max 1 (match v with
      | none => 1
      | some n => if n = 0 then 1 else n) }

/-- The `handleExportCurrentWinners` handler of `Raffle.tsx` lines 139–148: when there
are current winners, export rows rebuilt from them with `drawType` set to
the currently selected pool and `drawDate` set to the export-time clock
(`new Date()` at line 144); otherwise no export happens. -/
def handleExportCurrentWinners (exportTime : Nat) (s : RaffleState) :
    Option (List Winner) :=
  if s.currentWinners.length > 0 then
    some (s.currentWinners.map fun w =>
      { name := w.name
        department := w.department
        supervisor := w.supervisor
        tickets := w.tickets
        drawType := s.selectedDraw
        drawDate := exportTime })
  else none

/-! ### Concrete data used by witnesses and counterexamples -/

/-- A concrete contestant. -/
def alice : Contestant :=
  { name := "Alice", department := "D1", supervisor := "S1", tickets := 1
    drawType := DrawType.discovery70 }

/-- A concrete contestant. -/
def bob : Contestant :=
  { name := "Bob", department := "D2", supervisor := "S2", tickets := 1
    drawType := DrawType.discovery70 }

/-- A concrete contestant with zero ticket weight. -/
def zeroCara : Contestant :=
  { name := "Cara", department := "D3", supervisor := "S3", tickets := 0
    drawType := DrawType.discovery70 }

/-- The degenerate random source that always returns 0. -/
def rand0 : Nat → Nat := fun _ => 0

/-- A concrete contestant source: `alice` alone in the 70% pool. -/
def getAllOne : DrawType → List Contestant := fun d =>
  match d with
  | DrawType.discovery70 => [alice]
  | DrawType.discovery80 => []

/-! ### Basic lemmas about the engine -/

/-- Unfolding of `totalTickets` on a cons. -/
theorem totalTickets_cons (c : Contestant) (rest : List Contestant) :
    totalTickets (c :: rest) = c.tickets + totalTickets rest := by
  simp [totalTickets]

/-- A non-empty pool of positive weights has positive total weight. -/
theorem totalTickets_pos (pool : List Contestant) (hne : pool ≠ [])
    (hpos : ∀ c ∈ pool, 0 < c.tickets) : 0 < totalTickets pool := by
  induction pool with
  | nil => exact absurd rfl hne
  | cons c rest ih =>
    rw [totalTickets_cons]
    rcases List.eq_nil_or_concat rest with h | _
    · subst h
      simpa [totalTickets] using hpos c (by simp)
    · have hc : 0 < c.tickets := hpos c (by simp)
      have hrest : 0 < totalTickets rest := by
        apply ih
        · rintro rfl
          simp_all
        · intro d hd
          exact hpos d (by simp [hd])
      omega

/-- The cumulative walk only returns members of the pool. -/
theorem walkPick_mem (pool : List Contestant) (acc r : Int) (c : Contestant)
    (h : walkPick pool acc r = some c) : c ∈ pool := by
  induction pool generalizing acc with
  | nil => simp [walkPick] at h
  | cons d rest ih =>
    rw [walkPick] at h
    split at h
    · simp_all
    · exact List.mem_cons_of_mem _ (ih _ h)

/-- When the walk starts at or below the drawn value, the winner it returns
has positive weight: contestants with `tickets ≤ 0` are never picked. -/
theorem walkPick_pos (pool : List Contestant) (acc r : Int) (c : Contestant)
    (hacc : acc ≤ r) (h : walkPick pool acc r = some c) : 0 < c.tickets := by
  induction pool generalizing acc with
  | nil => simp [walkPick] at h
  | cons d rest ih =>
    rw [walkPick] at h
    split at h
    · rename_i hgt
      obtain rfl : d = c := by simpa using h
      omega
    · rename_i hle
      exact ih (acc + d.tickets) (by omega) h

/-- When the drawn value lies below the pool's cumulative weight, the walk
finds a winner. -/
theorem walkPick_isSome (pool : List Contestant) (acc r : Int)
    (hacc : acc ≤ r) (hlt : r < acc + totalTickets pool) :
    ∃ c, walkPick pool acc r = some c := by
  induction pool generalizing acc with
  | nil =>
    exfalso
    simp [totalTickets] at hlt
    omega
  | cons d rest ih =>
    rw [walkPick]
    split
    · exact ⟨d, rfl⟩
    · rename_i hle
      apply ih (acc + d.tickets) (by omega)
      rw [totalTickets_cons] at hlt
      omega

/-- Every winner of the draw rounds is a member of the starting pool. -/
theorem drawLoop_mem (rand : Nat → Nat) (i k : Nat) (pool : List Contestant)
    (c : Contestant) (h : c ∈ drawLoop rand i k pool) : c ∈ pool := by
  induction k generalizing i pool with
  | zero => simp [drawLoop] at h
  | succ k ih =>
    rw [drawLoop] at h
    split at h
    · simp at h
    · split at h
      · simp at h
      · split at h
        · simp at h
        · rename_i w hw
          rcases List.mem_cons.mp h with rfl | hmem
          · exact walkPick_mem _ _ _ _ hw
          · exact (pool.erase_sublist w).mem (ih (i + 1) _ hmem)

/-- Every winner of the draw rounds has positive ticket weight. -/
theorem drawLoop_pos (rand : Nat → Nat) (i k : Nat) (pool : List Contestant)
    (c : Contestant) (h : c ∈ drawLoop rand i k pool) : 0 < c.tickets := by
  induction k generalizing i pool with
  | zero => simp [drawLoop] at h
  | succ k ih =>
    rw [drawLoop] at h
    split at h
    · simp at h
    · split at h
      · simp at h
      · rename_i hs
        split at h
        · simp at h
        · rename_i w hw
          rcases List.mem_cons.mp h with rfl | hmem
          · refine walkPick_pos _ 0 _ _ ?_ hw
            exact Int.emod_nonneg _ (by omega)
          · exact ih (i + 1) _ hmem

/-- The draw rounds never produce more winners than `k`, nor more than the
pool holds. -/
theorem drawLoop_length_le (rand : Nat → Nat) (i k : Nat) (pool : List Contestant) :
    (drawLoop rand i k pool).length ≤ min k pool.length := by
  induction k generalizing i pool with
  | zero => simp [drawLoop]
  | succ k ih =>
    rw [drawLoop]
    split
    · simp
    · rename_i hne
      split
      · simp
      · split
        · simp
        · rename_i w hw
          have hmem : w ∈ pool := walkPick_mem _ _ _ _ hw
          have hlen : (pool.erase w).length = pool.length - 1 :=
            List.length_erase_of_mem hmem
          have hb := ih (i + 1) (pool.erase w)
          have hp : 0 < pool.length := by
            have : pool ≠ [] := by simpa [List.isEmpty_iff] using hne
            exact List.length_pos.mpr this
          simp only [List.length_cons]
          omega

/-- On a pool of positive weights, exactly `min k |pool|` winners are drawn:
no round stalls before the fuel or the pool runs out. -/
theorem drawLoop_length_eq (rand : Nat → Nat) (i k : Nat) (pool : List Contestant)
    (hpos : ∀ c ∈ pool, 0 < c.tickets) :
    (drawLoop rand i k pool).length = min k pool.length := by
  induction k generalizing i pool with
  | zero => simp [drawLoop]
  | succ k ih =>
    rw [drawLoop]
    split
    · rename_i hemp
      have : pool = [] := by simpa [List.isEmpty_iff] using hemp
      simp [this]
    · rename_i hne
      have hnil : pool ≠ [] := by simpa [List.isEmpty_iff] using hne
      have hs : 0 < totalTickets pool := totalTickets_pos pool hnil hpos
      split
      · omega
      · have hr0 : (0:Int) ≤ (rand i : Int) % totalTickets pool :=
          Int.emod_nonneg _ (by omega)
        have hrlt : (rand i : Int) % totalTickets pool < totalTickets pool :=
          Int.emod_lt_of_pos _ hs
        split
        · rename_i hnone
          obtain ⟨c, hc⟩ := walkPick_isSome pool 0 _ hr0 (by omega)
          simp [hc] at hnone
        · rename_i w hw
          have hmem : w ∈ pool := walkPick_mem _ _ _ _ hw
          have hlen : (pool.erase w).length = pool.length - 1 :=
            List.length_erase_of_mem hmem
          have hb := ih (i + 1) (pool.erase w) (fun c hc =>
            hpos c ((pool.erase_sublist w).mem hc))
          have hp : 0 < pool.length := List.length_pos.mpr hnil
          simp only [List.length_cons]
          omega

/-- When the pool's names are pairwise distinct, so are the names of the
drawn winners: no contestant appears twice in one result. -/
theorem drawLoop_names_nodup (rand : Nat → Nat) (i k : Nat) (pool : List Contestant)
    (hnd : (pool.map Contestant.name).Nodup) :
    ((drawLoop rand i k pool).map Contestant.name).Nodup := by
  induction k generalizing i pool with
  | zero => simp [drawLoop]
  | succ k ih =>
    rw [drawLoop]
    split
    · simp
    · split
      · simp
      · split
        · simp
        · rename_i w hw
          have hmem : w ∈ pool := walkPick_mem _ _ _ _ hw
          have hpool : pool.Nodup := List.Nodup.of_map _ hnd
          have hsub : List.Sublist ((pool.erase w).map Contestant.name)
              (pool.map Contestant.name) :=
            List.Sublist.map _ (pool.erase_sublist w)
          have hnd' : ((pool.erase w).map Contestant.name).Nodup :=
            hnd.sublist hsub
          simp only [List.map_cons, List.nodup_cons]
          refine ⟨?_, ih (i + 1) _ hnd'⟩
          intro hin
          obtain ⟨d, hd, hdn⟩ := List.mem_map.mp hin
          have hdp : d ∈ pool.erase w := drawLoop_mem _ _ _ _ _ hd
          have hdne : d ≠ w := (hpool.mem_erase_iff.mp hdp).1
          have hdpool : d ∈ pool := (hpool.mem_erase_iff.mp hdp).2
          exact hdne (List.inj_on_of_nodup_map hnd hdpool hmem hdn)

/-- No winners can be drawn from an empty pool. -/
theorem drawLoop_nil (rand : Nat → Nat) (i k : Nat) : drawLoop rand i k [] = [] := by
  cases k <;> simp [drawLoop]

/-- Membership in the filtered candidate pool unpacked. -/
theorem mem_candidates {pool : List Contestant} {excl : List String} {c : Contestant}
    (h : c ∈ pool.filter fun d => !(excl.contains d.name)) :
    c ∈ pool ∧ c.name ∉ excl := by
  simp [List.mem_filter] at h
  exact h

/-- When every candidate has positive weight, the engine succeeds and its
result is exactly the draw rounds run on the filtered pool. -/
theorem selectWinners_eq_of_pos (rand : Nat → Nat) (pool : List Contestant)
    (count : Nat) (excl : List String)
    (hpos : ∀ c ∈ pool.filter fun d => !(excl.contains d.name), 0 < c.tickets) :
    selectWinners rand pool count excl =
      Except.ok (drawLoop rand 0 count (pool.filter fun d => !(excl.contains d.name))) := by
  simp only [selectWinners]
  split
  · rename_i hemp
    rw [List.isEmpty_iff] at hemp
    rw [hemp, drawLoop_nil]
  · split
    · rename_i hcz
      subst hcz
      rw [drawLoop]
  
    · split
      · rename_i hemp hcz hall
        exfalso
        rw [List.isEmpty_iff] at hemp
        obtain ⟨c, hc⟩ := List.exists_mem_of_ne_nil _ hemp
        have h1 := hpos c hc
        have h2 : c.tickets ≤ 0 := by simpa using List.all_eq_true.mp hall c hc
        omega
      · rfl

/-- A successful draw only returns candidates: pool members whose name is
not excluded. -/
theorem selectWinners_ok_mem (rand : Nat → Nat) (pool : List Contestant)
    (count : Nat) (excl : List String) (ws : List Contestant)
    (h : selectWinners rand pool count excl = Except.ok ws) :
    ∀ c ∈ ws, c ∈ pool ∧ c.name ∉ excl := by
  intro c hc
  simp only [selectWinners] at h
  split at h
  · obtain rfl : ([] : List Contestant) = ws := by simpa using h
    simp at hc
  · split at h
    · obtain rfl : ([] : List Contestant) = ws := by simpa using h
      simp at hc
    · split at h
      · simp at h
      · obtain rfl : drawLoop rand 0 count
            (pool.filter fun d => !(excl.contains d.name)) = ws := by simpa using h
        exact mem_candidates (drawLoop_mem _ _ _ _ _ hc)

/-- A successful draw only returns positive-weight contestants. -/
theorem selectWinners_ok_pos (rand : Nat → Nat) (pool : List Contestant)
    (count : Nat) (excl : List String) (ws : List Contestant)
    (h : selectWinners rand pool count excl = Except.ok ws) :
    ∀ c ∈ ws, 0 < c.tickets := by
  intro c hc
  simp only [selectWinners] at h
  split at h
  · obtain rfl : ([] : List Contestant) = ws := by simpa using h
    simp at hc
  · split at h
    · obtain rfl : ([] : List Contestant) = ws := by simpa using h
      simp at hc
    · split at h
      · simp at h
      · obtain rfl : drawLoop rand 0 count
            (pool.filter fun d => !(excl.contains d.name)) = ws := by simpa using h
        exact drawLoop_pos _ _ _ _ _ hc

/-- A successful draw never returns more winners than requested, nor more
than the filtered pool holds. -/
theorem selectWinners_ok_length_le (rand : Nat → Nat) (pool : List Contestant)
    (count : Nat) (excl : List String) (ws : List Contestant)
    (h : selectWinners rand pool count excl = Except.ok ws) :
    ws.length ≤ count ∧
      ws.length ≤ (pool.filter fun d => !(excl.contains d.name)).length := by
  simp only [selectWinners] at h
  split at h
  · obtain rfl : ([] : List Contestant) = ws := by simpa using h
    simp
  · split at h
    · obtain rfl : ([] : List Contestant) = ws := by simpa using h
      simp
    · split at h
      · simp at h
      · obtain rfl : drawLoop rand 0 count
            (pool.filter fun d => !(excl.contains d.name)) = ws := by simpa using h
        have hle := drawLoop_length_le rand 0 count
          (pool.filter fun d => !(excl.contains d.name))
        omega

/-- Filtering the available pool by the persisted winner names again changes
nothing: `availableContestants` is already that filter. -/
theorem avail_filter_self (getAll : DrawType → List Contestant) (s : RaffleState) :
    ((availableContestants getAll s).filter
      fun d => !((existingWinnerNames s).contains d.name)) =
      availableContestants getAll s := by
  rw [List.filter_eq_self]
  intro a ha
  simp only [availableContestants, List.mem_filter] at ha
  exact ha.2

/-- On a non-empty all-positive pool, one draw round yields the cumulative
walk's winner followed by the remaining rounds on the pool without it. -/
theorem drawLoop_succ_pos (rand : Nat → Nat) (i k : Nat) (pool : List Contestant)
    (hne : pool ≠ []) (hpos : ∀ c ∈ pool, 0 < c.tickets) :
    ∃ c, walkPick pool 0 ((rand i : Int) % totalTickets pool) = some c ∧
      drawLoop rand i (k + 1) pool = c :: drawLoop rand (i + 1) k (pool.erase c) := by
  have hs := totalTickets_pos pool hne hpos
  have hr0 : (0:Int) ≤ (rand i : Int) % totalTickets pool :=
    Int.emod_nonneg _ (by omega)
  have hrlt : (rand i : Int) % totalTickets pool < totalTickets pool :=
    Int.emod_lt_of_pos _ hs
  obtain ⟨c, hc⟩ := walkPick_isSome pool 0 _ hr0 (by omega)
  refine ⟨c, hc, ?_⟩
  rw [drawLoop]
  simp [List.isEmpty_iff, hne, hs.not_le, hc]

/-- When the available pool is non-empty and all-positive, the draw button
runs the engine on it and records the drawn winners. -/
theorem handleDraw_eq_pos (getAll : DrawType → List Contestant) (rand : Nat → Nat)
    (now : Nat) (s : RaffleState)
    (hne : availableContestants getAll s ≠ [])
    (hpos : ∀ c ∈ availableContestants getAll s, 0 < c.tickets) :
    (handleDraw getAll rand now s).2 = DrawOutcome.drawn
      (drawLoop rand 0
        (min s.winnerCount ((availableContestants getAll s).length : Int)).toNat
        (availableContestants getAll s)) ∧
    (handleDraw getAll rand now s).1.allWinners = s.allWinners ++
      ((drawLoop rand 0
        (min s.winnerCount ((availableContestants getAll s).length : Int)).toNat
        (availableContestants getAll s)).map fun w => addWinner now w s.selectedDraw) := by
  have hfilter := avail_filter_self getAll s
  have hpos' : ∀ c ∈ (availableContestants getAll s).filter
      fun d => !((existingWinnerNames s).contains d.name), 0 < c.tickets := by
    rw [hfilter]
    exact hpos
  have hsel := selectWinners_eq_of_pos rand (availableContestants getAll s)
    (min s.winnerCount ((availableContestants getAll s).length : Int)).toNat
    (existingWinnerNames s) hpos'
  rw [hfilter] at hsel
  simp only [handleDraw]
  rw [if_neg (by simp [hne]), hsel]
  exact ⟨rfl, rfl⟩

/-- C1: for every pool `P` of contestants (well-formed per spec §3: positive
integer ticket weights, names unique within the pool) and every count
`k ≤ |P|`, `selectWinners(P, k, ∅)` returns a sequence of exactly `k`
entries, pairwise distinct, each an element of `P` — winners are drawn
without replacement. -/
theorem selectWinners_k_distinct_from_pool (rand : Nat → Nat) (P : List Contestant)
    (k : Nat) (hk : k ≤ P.length) (hpos : ∀ c ∈ P, 0 < c.tickets)
    (hnames : (P.map Contestant.name).Nodup) :
    ∃ ws, selectWinners rand P k [] = Except.ok ws ∧ ws.length = k ∧
      ws.Nodup ∧ ∀ c ∈ ws, c ∈ P := by
  have hfP : (P.filter fun d => !(([] : List String).contains d.name)) = P := by
    simp
  have hpos' : ∀ c ∈ P.filter fun d => !(([] : List String).contains d.name),
      0 < c.tickets := by
    rw [hfP]
    exact hpos
  have hsel := selectWinners_eq_of_pos rand P k [] hpos'
  rw [hfP] at hsel
  refine ⟨drawLoop rand 0 k P, hsel, ?_, ?_, ?_⟩
  · rw [drawLoop_length_eq rand 0 k P hpos]
    omega
  · exact List.Nodup.of_map _ (drawLoop_names_nodup rand 0 k P hnames)
  · exact fun c hc => drawLoop_mem rand 0 k P c hc

/-- Witness for the C1 theorem at the two-contestant pool. -/
theorem selectWinners_k_distinct_from_pool_witness :
    ∃ ws, selectWinners rand0 [alice, bob] 2 [] = Except.ok ws ∧ ws.length = 2 ∧
      ws.Nodup ∧ ∀ c ∈ ws, c ∈ [alice, bob] :=
  selectWinners_k_distinct_from_pool rand0 [alice, bob] 2 (by decide) (by decide)
    (by decide)

/-- C2: no entry of a draw's result belongs to `excludedNames`; the draw
button never again selects a name among the persisted winners; and feeding
round-1 winners into round-2's exclusions never reproduces a round-1 winner
in round 2. -/
theorem selectWinners_respects_exclusions :
    (∀ (rand : Nat → Nat) (pool : List Contestant) (count : Nat) (excl : List String)
      (ws : List Contestant), selectWinners rand pool count excl = Except.ok ws →
      ∀ c ∈ ws, c.name ∉ excl) ∧
    (∀ (getAll : DrawType → List Contestant) (rand : Nat → Nat) (now : Nat)
      (s : RaffleState) (ws : List Contestant),
      (handleDraw getAll rand now s).2 = DrawOutcome.drawn ws →
      ∀ c ∈ ws, c.name ∉ existingWinnerNames s) ∧
    (∀ (rand1 rand2 : Nat → Nat) (pool1 pool2 : List Contestant) (k1 k2 : Nat)
      (ws1 ws2 : List Contestant),
      selectWinners rand1 pool1 k1 [] = Except.ok ws1 →
      selectWinners rand2 pool2 k2 (ws1.map Contestant.name) = Except.ok ws2 →
      ∀ c ∈ ws2, c.name ∉ ws1.map Contestant.name) := by
  refine ⟨?_, ?_, ?_⟩
  · intro rand pool count excl ws h c hc
    exact (selectWinners_ok_mem rand pool count excl ws h c hc).2
  · intro getAll rand now s ws h c hc
    simp only [handleDraw] at h
    split at h
    · simp at h
    · split at h
      · simp at h
      · rename_i winners hw
        obtain rfl : winners = ws := by simpa using h
        exact (selectWinners_ok_mem _ _ _ _ _ hw c hc).2
  · intro rand1 rand2 pool1 pool2 k1 k2 ws1 ws2 _ h2 c hc
    exact (selectWinners_ok_mem _ _ _ _ _ h2 c hc).2

/-- Witness for the C2 theorem: with `alice` excluded, a draw from the
two-contestant pool returns only `bob`, whose name is not excluded. -/
theorem selectWinners_respects_exclusions_witness :
    ∀ c ∈ [bob], c.name ∉ ["Alice"] :=
  selectWinners_respects_exclusions.1 rand0 [alice, bob] 1 ["Alice"] [bob] rfl

/-- C3: on a non-empty candidate pool in which every candidate has
non-positive ticket weight, an attempted draw (`count > 0`, where §4.1 step 2
would divide by the zero total) fails with the defined error — it does not
silently return an empty result. -/
theorem selectWinners_all_zero_weight_errors (rand : Nat → Nat)
    (pool : List Contestant) (count : Nat) (excl : List String)
    (hne : (pool.filter fun d => !(excl.contains d.name)) ≠ [])
    (hz : ∀ c ∈ pool.filter fun d => !(excl.contains d.name), c.tickets ≤ 0)
    (hcount : 0 < count) :
    selectWinners rand pool count excl =
      Except.error DrawError.noPositiveWeightCandidates := by
  simp only [selectWinners]
  rw [if_neg (by simpa [List.isEmpty_iff] using hne), if_neg (by omega),
    if_pos (List.all_eq_true.mpr fun c hc => by simpa using hz c hc)]

/-- Witness for the C3 theorem at the singleton zero-weight pool. -/
theorem selectWinners_all_zero_weight_errors_witness :
    selectWinners rand0 [zeroCara] 1 [] =
      Except.error DrawError.noPositiveWeightCandidates :=
  selectWinners_all_zero_weight_errors rand0 [zeroCara] 1 [] (by decide) (by decide)
    (by decide)

/-- C8: boundary cases return empty without error — a zero count, an empty
pool, and more generally an empty filtered pool all yield `ok []`. -/
theorem selectWinners_boundary_empty :
    (∀ (rand : Nat → Nat) (P : List Contestant) (excl : List String),
      selectWinners rand P 0 excl = Except.ok []) ∧
    (∀ (rand : Nat → Nat) (k : Nat) (excl : List String),
      selectWinners rand [] k excl = Except.ok []) ∧
    (∀ (rand : Nat → Nat) (P : List Contestant) (k : Nat) (excl : List String),
      (P.filter fun d => !(excl.contains d.name)) = [] →
      selectWinners rand P k excl = Except.ok []) := by
  refine ⟨?_, ?_, ?_⟩
  · intro rand P excl
    simp only [selectWinners]
    split
    · rfl
    · simp
  · intro rand k excl
    simp [selectWinners]
  · intro rand P k excl h
    simp only [selectWinners]
    rw [if_pos (by simpa [List.isEmpty_iff] using h)]

/-- Witness for the C8 theorem: a pool whose only contestant is excluded
yields an empty result with no error. -/
theorem selectWinners_boundary_empty_witness :
    selectWinners rand0 [alice] 3 ["Alice"] = Except.ok [] :=
  selectWinners_boundary_empty.2.2 rand0 [alice] 3 ["Alice"] (by decide)

/-- C9: a contestant with non-positive ticket weight never appears in a
draw's result, whatever the pool, count, exclusions and random sequence; and
such contestants cause no error as long as some candidate has positive
weight. -/
theorem selectWinners_zero_weight_never_wins :
    (∀ (rand : Nat → Nat) (pool : List Contestant) (count : Nat) (excl : List String)
      (ws : List Contestant), selectWinners rand pool count excl = Except.ok ws →
      ∀ c, c.tickets ≤ 0 → c ∉ ws) ∧
    (∀ (rand : Nat → Nat) (pool : List Contestant) (count : Nat) (excl : List String),
      (∃ c ∈ pool.filter fun d => !(excl.contains d.name), 0 < c.tickets) →
      ∃ ws, selectWinners rand pool count excl = Except.ok ws) := by
  constructor
  · intro rand pool count excl ws h c hcz hmem
    have := selectWinners_ok_pos rand pool count excl ws h c hmem
    omega
  · intro rand pool count excl hex
    simp only [selectWinners]
    split
    · exact ⟨[], rfl⟩
    · split
      · exact ⟨[], rfl⟩
      · split
        · rename_i hall
          exfalso
          obtain ⟨c, hc, hcp⟩ := hex
          have hle : c.tickets ≤ 0 := by simpa using List.all_eq_true.mp hall c hc
          omega
        · exact ⟨_, rfl⟩

/-- Witness for the C9 theorem: drawing two from `[alice, zeroCara]` returns
`[alice]`; no non-positive-weight contestant is in it. -/
theorem selectWinners_zero_weight_never_wins_witness :
    ∀ c, Contestant.tickets c ≤ 0 → c ∉ [alice] :=
  selectWinners_zero_weight_never_wins.1 rand0 [alice, zeroCara] 2 [] [alice] rfl

/-- C4: on a well-formed non-empty available pool, the draw button draws
exactly `min(requested count, |available pool|)` winners (the caller clamps
the count at `Raffle.tsx` line 118), and the result is ordered by draw
round: its first element is the winner of the first round's cumulative
walk. -/
theorem handleDraw_clamped_count (getAll : DrawType → List Contestant)
    (rand : Nat → Nat) (now : Nat) (s : RaffleState)
    (hne : availableContestants getAll s ≠ [])
    (hpos : ∀ c ∈ availableContestants getAll s, 0 < c.tickets)
    (hwc : 1 ≤ s.winnerCount) :
    ∃ ws, (handleDraw getAll rand now s).2 = DrawOutcome.drawn ws ∧
      ws.length = min s.winnerCount.toNat (availableContestants getAll s).length ∧
      ∃ c rest, ws = c :: rest ∧
        walkPick (availableContestants getAll s) 0
          ((rand 0 : Int) % totalTickets (availableContestants getAll s)) = some c := by
  obtain ⟨hout, -⟩ := handleDraw_eq_pos getAll rand now s hne hpos
  have hlen : 0 < (availableContestants getAll s).length := List.length_pos.mpr hne
  refine ⟨_, hout, ?_, ?_⟩
  · rw [drawLoop_length_eq rand 0 _ _ hpos]
    omega
  · have hk1 : ∃ k', (min s.winnerCount ((availableContestants getAll s).length : Int)).toNat
        = k' + 1 :=
      ⟨(min s.winnerCount ((availableContestants getAll s).length : Int)).toNat - 1,
        by omega⟩
    obtain ⟨k', hk'⟩ := hk1
    rw [hk']
    obtain ⟨c, hc, hdl⟩ := drawLoop_succ_pos rand 0 k' (availableContestants getAll s)
      hne hpos
    exact ⟨c, _, hdl, hc⟩

/-- Witness for the C4 theorem at the singleton pool. -/
theorem handleDraw_clamped_count_witness :
    ∃ ws, (handleDraw getAllOne rand0 5 (initialState [])).2 = DrawOutcome.drawn ws ∧
      ws.length = min (initialState []).winnerCount.toNat
        (availableContestants getAllOne (initialState [])).length ∧
      ∃ c rest, ws = c :: rest ∧
        walkPick (availableContestants getAllOne (initialState [])) 0
          ((rand0 0 : Int) %
            totalTickets (availableContestants getAllOne (initialState []))) = some c :=
  handleDraw_clamped_count getAllOne rand0 5 (initialState []) (by decide) (by decide)
    (by decide)

/-- C5 counterexample: after a draw at time 10 from the 70% pool and a
switch to the 80% pool, exporting at time 99 produces a row carrying the
export-time date 99 and the currently selected pool `discovery80` — not the
persisted winner's draw-time date 10 and pool `discovery70`. Exported rows
recompute `drawDate` and `drawType` at export time (`Raffle.tsx` lines
141–145). -/
theorem export_recomputes_metadata_cex :
    (handleDraw getAllOne rand0 10 (initialState [])).1.allWinners =
      [addWinner 10 alice DrawType.discovery70] ∧
    handleExportCurrentWinners 99
      (setSelectedDraw (handleDraw getAllOne rand0 10 (initialState [])).1
        DrawType.discovery80) =
      some [{ name := "Alice", department := "D1", supervisor := "S1", tickets := 1
              drawType := DrawType.discovery80, drawDate := 99 }] ∧
    (addWinner 10 alice DrawType.discovery70).drawDate ≠ 99 ∧
    (addWinner 10 alice DrawType.discovery70).drawType ≠ DrawType.discovery80 := by
  refine ⟨rfl, rfl, by decide, by decide⟩

/-- C5 amended: the persisted `Winner` records are created at draw time —
appended to the winner list with `drawDate` equal to the draw's clock and
`drawType` equal to the pool drawn from, the existing records untouched —
while the CSV export rows are rebuilt from the current winners with
`drawDate` equal to the export-time clock and `drawType` equal to the pool
selected at export time. -/
theorem draw_time_metadata_assignment :
    (∀ (getAll : DrawType → List Contestant) (rand : Nat → Nat) (now : Nat)
      (s s' : RaffleState) (ws : List Contestant),
      handleDraw getAll rand now s = (s', DrawOutcome.drawn ws) →
      ∃ saved, s'.allWinners = s.allWinners ++ saved ∧
        ∀ w ∈ saved, w.drawDate = now ∧ w.drawType = s.selectedDraw) ∧
    (∀ (exportTime : Nat) (s : RaffleState) (rows : List Winner),
      handleExportCurrentWinners exportTime s = some rows →
      ∀ w ∈ rows, w.drawDate = exportTime ∧ w.drawType = s.selectedDraw) := by
  constructor
  · intro getAll rand now s s' ws h
    simp only [handleDraw] at h
    split at h
    · simp at h
    · split at h
      · simp at h
      · rename_i winners hw
        rw [Prod.mk.injEq] at h
        obtain ⟨h1, h2⟩ := h
        obtain rfl : ws = winners := by simpa using h2.symm
        refine ⟨ws.map (fun w => addWinner now w s.selectedDraw), ?_, ?_⟩
        · rw [← h1]
        · intro w hw2
          obtain ⟨c, _, rfl⟩ := List.mem_map.mp hw2
          exact ⟨rfl, rfl⟩
  · intro exportTime s rows h
    simp only [handleExportCurrentWinners] at h
    split at h
    · obtain rfl : _ = rows := by simpa using h
      intro w hw
      obtain ⟨c, _, rfl⟩ := List.mem_map.mp hw
      exact ⟨rfl, rfl⟩
    · simp at h

/-- Witness for the amended C5 theorem at a concrete draw. -/
theorem draw_time_metadata_assignment_witness :
    ∃ saved, (handleDraw getAllOne rand0 10 (initialState [])).1.allWinners =
        (initialState []).allWinners ++ saved ∧
      ∀ w ∈ saved, w.drawDate = 10 ∧ w.drawType = (initialState []).selectedDraw :=
  draw_time_metadata_assignment.1 getAllOne rand0 10 (initialState [])
    (handleDraw getAllOne rand0 10 (initialState [])).1 [alice] rfl

/-- C6: a failed remote winner fetch leaves the component with its local
winner set (`getWinners()`), only clearing the loading flag; a subsequent
draw behaves exactly as it would on the locally cached state — in
particular it computes the same available pool and is never aborted by the
fetch failure. -/
theorem load_failure_falls_back_to_local :
    ∀ (s : RaffleState) (e : String) (getAll : DrawType → List Contestant)
      (rand : Nat → Nat) (now : Nat),
      loadWinnersFromSupabase s (Except.error e) = { s with isLoading := false } ∧
      (loadWinnersFromSupabase s (Except.error e)).allWinners = s.allWinners ∧
      availableContestants getAll (loadWinnersFromSupabase s (Except.error e)) =
        availableContestants getAll s ∧
      handleDraw getAll rand now (loadWinnersFromSupabase s (Except.error e)) =
        handleDraw getAll rand now { s with isLoading := false } := by
  intro s e getAll rand now
  exact ⟨rfl, rfl, rfl, rfl⟩

/-- C7: when the filtered available pool is empty, the draw button returns
immediately (`Raffle.tsx` line 109): the state is unchanged, nothing is
persisted, and the outcome is `skipped` — the engine is never invoked. -/
theorem handleDraw_empty_pool_is_noop (getAll : DrawType → List Contestant)
    (rand : Nat → Nat) (now : Nat) (s : RaffleState)
    (h : availableContestants getAll s = []) :
    handleDraw getAll rand now s = (s, DrawOutcome.skipped) := by
  simp [handleDraw, h]

/-- Witness for the C7 theorem with an empty contestant source. -/
theorem handleDraw_empty_pool_is_noop_witness :
    handleDraw (fun _ => []) rand0 0 (initialState []) =
      (initialState [], DrawOutcome.skipped) :=
  handleDraw_empty_pool_is_noop (fun _ => []) rand0 0 (initialState []) rfl

/-- C10: every change event leaves `winnerCount ≥ 1` (non-numeric or sub-1
input coerces to 1); the handler imposes no upper bound — any requested
value `≥ 1` is stored verbatim, e.g. 50 exceeds the displayed maximum
`min(10, available)` of a three-contestant pool — and the number of winners
actually drawn is bounded only by the `Math.min` clamp against the available
pool at draw time. -/
theorem winner_count_floor_no_ceiling :
    (∀ (s : RaffleState) (v : Option Int), 1 ≤ (updateWinnerCount s v).winnerCount) ∧
    (∀ (s : RaffleState) (n : Int), 1 ≤ n →
      (updateWinnerCount s (some n)).winnerCount = n) ∧
    ((updateWinnerCount (initialState []) (some 50)).winnerCount >
      min 10 ((availableContestants (fun _ => [alice, bob, zeroCara])
        (initialState [])).length : Int)) ∧
    (∀ (getAll : DrawType → List Contestant) (rand : Nat → Nat) (now : Nat)
      (s : RaffleState) (ws : List Contestant),
      (handleDraw getAll rand now s).2 = DrawOutcome.drawn ws →
      ws.length ≤
        (min s.winnerCount ((availableContestants getAll s).length : Int)).toNat ∧
      ws.length ≤ (availableContestants getAll s).length) := by
  refine ⟨?_, ?_, ?_, ?_⟩
  · intro s v
    cases v with
    | none => simp [updateWinnerCount]
    | some n =>
      simp only [updateWinnerCount]
      split <;> omega
  · intro s n hn
    simp only [updateWinnerCount]
    rw [if_neg (by omega)]
    omega
  · decide
  · intro getAll rand now s ws h
    simp only [handleDraw] at h
    split at h
    · simp at h
    · split at h
      · simp at h
      · rename_i winners hw
        obtain rfl : winners = ws := by simpa using h
        have hle := selectWinners_ok_length_le _ _ _ _ _ hw
        rw [avail_filter_self] at hle
        exact ⟨hle.1, hle.2⟩

/-- Witness for the C10 theorem: the input accepts 50 verbatim, and a
concrete draw's result is within the available pool's size. -/
theorem winner_count_floor_no_ceiling_witness :
    (updateWinnerCount (initialState []) (some 50)).winnerCount = 50 ∧
    [alice].length ≤ (availableContestants getAllOne (initialState [])).length :=
  ⟨winner_count_floor_no_ceiling.2.1 (initialState []) 50 (by decide),
   (winner_count_floor_no_ceiling.2.2.2 getAllOne rand0 0 (initialState [])
     [alice] rfl).2⟩
